import Mathlib

/-!
Verification of the solution-search core of the timetable-generation system:
shallow embedding of the genetic-algorithm, simulated-annealing and
constraint-programming strategies (`genetic_algorithms.py`,
`simulated_annealing.py`, `constraint_programming.py`), with theorems
settling the specification claims about them.

Conventions of the embedding:
* Python `dict`s (keyed, insertion-ordered, unique keys) are association
  lists `List (String × β)`; iteration over `.items()` is iteration over the
  list in order.
* Python `set`s of strings are duplicate-free lists (`insert` only appends
  unseen elements); only membership and cardinality are ever used.
* Randomness is resolved by explicit selector arguments: each call of
  `random.choice(l)` takes a natural number `n` and picks element
  `n % l.length`; each call of `random.random()`-based branching takes the
  boolean outcome of the comparison.  Quantifying over the selectors
  quantifies over all possible random draws.
* Fallible code (Python `IndexError` from `random.choice([])`, `KeyError`
  from indexing a missing dict key) is `Option`-valued: `none` is a crash.
* Mutable per-course records (`timetable[course_id]['teacher_id'] = ...`)
  are modelled with an explicit store: a solution is a list of
  (course id, reference) pairs and a `Heap` maps references to records.
* Time-of-day strings are modelled as minutes (`ℕ`); `start_time` and
  `end_time` of a `TimeSlot` are already in minutes.
-/

namespace Timetable

/-- Lookup in an association list (Python `dict.get` / `dict[k]`). -/
def alookup : List (String × β) → String → Option β
  | [], _ => none
  | (k, v) :: l, key => if key = k then some v else alookup l key

/-- Update the value stored under a key of an association list
(Python `d[k] = f(d[k])` for an existing key `k`). -/
def updateA : List (String × β) → String → (β → β) → List (String × β)
  | [], _, _ => []
  | (k, v) :: l, key, f => if key = k then (k, f v) :: l else (k, v) :: updateA l key f

/-- Resolve one `random.choice(l)` call: crash (`none`) on an empty list,
otherwise return the element selected by the draw `n`. -/
def pyChoice : List α → ℕ → Option α
  | [], _ => none
  | a :: l, n => some ((a :: l).getD (n % (l.length + 1)) a)

/-- Insert into a list sorted by `key` (after existing ties, as Python's
stable `list.sort`). -/
def insortOn (key : α → ℕ) (x : α) : List α → List α
  | [] => [x]
  | y :: l => if key x ≤ key y then x :: y :: l else y :: insortOn key x l

/-- Stable sort by a natural-number key (Python `list.sort(key=...)`). -/
def sortOn (key : α → ℕ) (l : List α) : List α :=
  l.foldr (insortOn key) []

/-- Absolute difference on naturals (Python `abs(a - b)` on ints). -/
def natDist (a b : ℕ) : ℕ := max a b - min a b

/-- Python `set.add`: append an element only if it is not present. -/
def insertUnique (x : String) (l : List String) : List String :=
  if x ∈ l then l else l ++ [x]

/-- Python `set.update(students)`. -/
def unionStudents (l : List String) (students : List String) : List String :=
  students.foldl (fun acc s => insertUnique s acc) l

/-! ## Data model (`models.py`, fields used by the search core) -/

/-- Teacher record (`models.Teacher`); only `is_mentor` is read by the
cost/fitness evaluators. -/
structure Teacher where
  is_mentor : Bool
deriving DecidableEq, Repr

/-- Course record (`models.Course`); the fields read by the search core. -/
structure Course where
  hours_per_week : ℕ
  preferred_rooms : List String
  eligible_teachers : List String
  student_groups : List String
deriving DecidableEq, Repr

/-- Time-slot record (`models.TimeSlot`); times are minutes of the day. -/
structure TimeSlot where
  day : String
  start_time : ℕ
  end_time : ℕ
deriving DecidableEq, Repr

/-- Student-group record (`models.StudentGroup`). -/
structure StudentGroup where
  students : List String
  courses : List String
deriving DecidableEq, Repr

/-- The reference data handed to every strategy (the `data` dict). -/
structure TimetableData where
  teachers : List (String × Teacher)
  courses : List (String × Course)
  time_slots : List (String × TimeSlot)
  student_groups : List (String × StudentGroup)
deriving DecidableEq, Repr

/-- One per-course assignment record
`{'teacher_id': ..., 'room_id': ..., 'time_slot_id': ...}`. -/
structure Assignment where
  teacher_id : String
  room_id : String
  time_slot_id : String
deriving DecidableEq, Repr

/-- A solution by value: course id ↦ assignment, in insertion order. -/
abbrev Solution := List (String × Assignment)

/-! ## Simulated annealing: cost (`SimulatedAnnealing._calculate_cost`) -/

namespace SA

/-- The accumulating `teacher_timeslots` / `room_timeslots` loop of
`_calculate_cost`: walk the solution, counting one violation whenever the
projected key has already been seen with the same time slot, otherwise
recording the slot. -/
def overlapAux (proj : Assignment → String) :
    List (String × List String) → Solution → ℕ
  | _, [] => 0
  | seen, (_, a) :: rest =>
    let k := proj a
    let slots := (alookup seen k).getD []
    if a.time_slot_id ∈ slots then
      1 + overlapAux proj seen rest
    else
      overlapAux proj
        (match alookup seen k with
         | none => seen ++ [(k, [a.time_slot_id])]
         | some _ => updateA seen k (fun l => l ++ [a.time_slot_id])) rest

/-- `violations["teacher_overlap"]` (or `"room_overlap"` with the room
projection) as computed by `_calculate_cost`. -/
def overlapViolations (proj : Assignment → String) (sol : Solution) : ℕ :=
  overlapAux proj [] sol

/-- `mentor_students = {t: set() for mentor teachers t}`. -/
def mentorInit (teachers : List (String × Teacher)) : List (String × List String) :=
  teachers.filterMap (fun p => if p.2.is_mentor then some (p.1, ([] : List String)) else none)

/-- One step of the student-collection loop of `_calculate_cost`: add the
students of the assigned course's groups to the assigned teacher's set,
when that teacher is a mentor. -/
def mentorStep (data : TimetableData) (m : List (String × List String))
    (entry : String × Assignment) : List (String × List String) :=
  if (alookup m entry.2.teacher_id).isSome then
    match alookup data.courses entry.1 with
    | none => m
    | some course =>
      updateA m entry.2.teacher_id (fun s =>
        course.student_groups.foldl (fun acc gid =>
          match alookup data.student_groups gid with
          | none => acc
          | some g => unionStudents acc g.students) s)
  else m

/-- The mentor-student sets after the collection loop of `_calculate_cost`. -/
def mentorStudents (data : TimetableData) (sol : Solution) : List (String × List String) :=
  sol.foldl (mentorStep data) (mentorInit data.teachers)

/-- `violations["mentor_group_size"]` as computed by `_calculate_cost`. -/
def mentorViolations (data : TimetableData) (sol : Solution) : ℕ :=
  (mentorStudents data sol).foldl
    (fun acc p => if p.2.length ≠ 4 then acc + natDist p.2.length 4 else acc) 0

/-- `SimulatedAnnealing._calculate_cost`.  The `back_to_back_sessions` and
`equitable_teaching_load` counters of the `violations` dict are initialized
to `0` and never modified anywhere in the method body. -/
def calculate_cost (data : TimetableData) (sol : Solution) : ℕ :=
  let teacher_overlap := overlapViolations (fun a => a.teacher_id) sol
  let room_overlap := overlapViolations (fun a => a.room_id) sol
  let mentor_group_size := mentorViolations data sol
  let back_to_back_sessions := 0
  let equitable_teaching_load := 0
  let hard_penalty := 100 * teacher_overlap + 100 * room_overlap + 100 * mentor_group_size
  let soft_penalty := 50 * back_to_back_sessions + 40 * equitable_teaching_load
  hard_penalty + soft_penalty

end SA

/-! ## Genetic algorithm: fitness (`GeneticAlgorithm._calculate_fitness`) -/

namespace GA

/-- The `teacher_timeslots` / `room_timeslots` loop of `_calculate_fitness`:
identical bookkeeping to the SA loop, but adding `100` to the penalty per
conflict instead of counting. -/
def overlapPenaltyAux (proj : Assignment → String) :
    List (String × List String) → Solution → ℕ
  | _, [] => 0
  | seen, (_, a) :: rest =>
    let k := proj a
    let slots := (alookup seen k).getD []
    if a.time_slot_id ∈ slots then
      100 + overlapPenaltyAux proj seen rest
    else
      overlapPenaltyAux proj
        (match alookup seen k with
         | none => seen ++ [(k, [a.time_slot_id])]
         | some _ => updateA seen k (fun l => l ++ [a.time_slot_id])) rest

/-- `teacher_conflict_penalty` (or `room_conflict_penalty`). -/
def overlapPenalty (proj : Assignment → String) (sol : Solution) : ℕ :=
  overlapPenaltyAux proj [] sol

/-- `mentor_students = {t: 0 for mentor teachers t}`. -/
def mentorInit (teachers : List (String × Teacher)) : List (String × ℕ) :=
  teachers.filterMap (fun p => if p.2.is_mentor then some (p.1, (0 : ℕ)) else none)

/-- The student-counting loop of `_calculate_fitness`: for every student
group and every assignment whose course the group is enrolled in, add the
full group size to the assigned teacher's count (duplicates included). -/
def mentorCounts (data : TimetableData) (sol : Solution) : List (String × ℕ) :=
  data.student_groups.foldl (fun m p =>
    sol.foldl (fun m2 q =>
      if q.1 ∈ p.2.courses then
        if (alookup m2 q.2.teacher_id).isSome then
          updateA m2 q.2.teacher_id (fun n => n + p.2.students.length)
        else m2
      else m2) m) (mentorInit data.teachers)

/-- `mentor_group_penalty`. -/
def mentorPenalty (data : TimetableData) (sol : Solution) : ℕ :=
  (mentorCounts data sol).foldl
    (fun acc p => if p.2 ≠ 4 then acc + 50 * natDist p.2 4 else acc) 0

/-- `GeneticAlgorithm._calculate_fitness`: the negated sum of the teacher,
room and mentor penalties. -/
def calculate_fitness (data : TimetableData) (sol : Solution) : ℤ :=
  let teacher_conflict_penalty := overlapPenalty (fun a => a.teacher_id) sol
  let room_conflict_penalty := overlapPenalty (fun a => a.room_id) sol
  let mentor_group_penalty := mentorPenalty data sol;
  -((teacher_conflict_penalty : ℤ) + room_conflict_penalty + mentor_group_penalty)

end GA

/-! ## The canonical cost formula of spec section 4.1

The claims compare the evaluators in the code against the penalty formula
stated in the specification.  The following definitions transcribe the
spec's wording (not any code) so the comparison can be stated; they are
used only on the spec side of those comparisons.  The repository's
`TimeSlot._time_to_minutes` helper (used by
`utils.calculate_constraint_violations`) is not present in the sources, so
slot times are taken as minutes directly. -/

namespace Spec

/-- Distinct values of a projection over the solution's assignments. -/
def keysOf (proj : Assignment → String) (sol : Solution) : List String :=
  (sol.map (fun p => proj p.2)).dedup

/-- The time-slot ids a given teacher (or room) is assigned, in order. -/
def slotsOf (proj : Assignment → String) (sol : Solution) (k : String) : List String :=
  sol.filterMap (fun p => if proj p.2 = k then some p.2.time_slot_id else none)

/-- Spec 4.1: "for each teacher, group its assigned time slots; each time
slot id seen more than once beyond the first occurrence counts as one
violation" (and the same rule keyed by room id). -/
def overlapCount (proj : Assignment → String) (sol : Solution) : ℕ :=
  ((keysOf proj sol).map
    (fun k => (slotsOf proj sol k).length - (slotsOf proj sol k).dedup.length)).sum

/-- The courses a teacher is assigned in the solution. -/
def coursesOf (data : TimetableData) (sol : Solution) (tid : String) : List Course :=
  sol.filterMap (fun p => if p.2.teacher_id = tid then alookup data.courses p.1 else none)

/-- Spec 4.1: the distinct students reachable through all courses assigned
to a teacher, via each course's student groups. -/
def reachableStudents (data : TimetableData) (sol : Solution) (tid : String) : List String :=
  ((((coursesOf data sol tid).foldl (fun acc c => acc ++ c.student_groups) []).filterMap
      (alookup data.student_groups)).foldl (fun acc g => acc ++ g.students) []).dedup

/-- Spec 4.1 mentor-group-size deviation: for each mentor-flagged teacher,
`|reachable student count − 4|`. -/
def mentorDeviation (data : TimetableData) (sol : Solution) : ℕ :=
  (data.teachers.filterMap (fun p =>
    if p.2.is_mentor then some (natDist (reachableStudents data sol p.1).length 4)
    else none)).sum

/-- Zero-gap adjacencies between consecutive sessions of a start-time-sorted
same-day slot list. -/
def adjacentCount : List TimeSlot → ℕ
  | s1 :: s2 :: rest => (if s2.start_time = s1.end_time then 1 else 0) + adjacentCount (s2 :: rest)
  | _ => 0

/-- Spec 4.1 back-to-back sessions: "within a teacher's slots on the same
day sorted by start time, a zero-gap adjacency between consecutive sessions
counts as one violation". -/
def backToBackCount (data : TimetableData) (sol : Solution) : ℕ :=
  ((keysOf (fun a => a.teacher_id) sol).map (fun tid =>
    let slots := (slotsOf (fun a => a.teacher_id) sol tid).filterMap (alookup data.time_slots)
    (((slots.map (fun s => s.day)).dedup).map (fun d =>
      adjacentCount (sortOn (fun s => s.start_time) (slots.filter (fun s => s.day = d))))).sum)).sum

/-- A teacher's total weekly hours under the solution. -/
def weeklyHours (data : TimetableData) (sol : Solution) (tid : String) : ℕ :=
  ((coursesOf data sol tid).map (fun c => c.hours_per_week)).sum

/-- Spec 4.1 equitable teaching load: "population standard deviation of
total weekly hours across teachers, scaled by 10 and truncated to an
integer violation count". -/
noncomputable def equitableLoad (data : TimetableData) (sol : Solution) : ℕ :=
  let loads : List ℝ := data.teachers.map (fun p => (weeklyHours data sol p.1 : ℝ))
  if loads.length = 0 then 0
  else
    let mean := loads.sum / loads.length;
    ⌊Real.sqrt ((loads.map (fun l => (l - mean) ^ 2)).sum / loads.length) * 10⌋₊

/-- Spec 4.1 total cost:
`100·(teacher_overlap + room_overlap + mentor_group_size) + 50·back_to_back + 40·equitable_load`. -/
noncomputable def totalCost (data : TimetableData) (sol : Solution) : ℕ :=
  100 * (overlapCount (fun a => a.teacher_id) sol + overlapCount (fun a => a.room_id) sol +
      mentorDeviation data sol) +
    50 * backToBackCount data sol + 40 * equitableLoad data sol

end Spec

/-! ## SA acceptance probability (`SimulatedAnnealing._acceptance_probability`) -/

namespace SA

/-- `SimulatedAnnealing._acceptance_probability`: `1.0` for a strictly
better neighbor, otherwise `exp((current_cost − new_cost)/temperature)`. -/
noncomputable def acceptance_probability (current_cost new_cost temperature : ℝ) : ℝ :=
  if new_cost < current_cost then 1
  else Real.exp ((current_cost - new_cost) / temperature)

/-! ### Initial solution (`SimulatedAnnealing._generate_initial_solution`) -/

/-- The body of `_generate_initial_solution`'s loop, with the position `i`
of the current course indexing the per-course random draws.  A course whose
eligible-teacher list, preferred-room list (or the time-slot table) is
empty is skipped (`continue`). -/
def genInitAux (data : TimetableData) (selT selR selS : ℕ → ℕ) :
    List (String × Course) → ℕ → Solution
  | [], _ => []
  | (cid, c) :: rest, i =>
    match pyChoice c.eligible_teachers (selT i) with
    | none => genInitAux data selT selR selS rest (i + 1)
    | some t =>
      match pyChoice c.preferred_rooms (selR i) with
      | none => genInitAux data selT selR selS rest (i + 1)
      | some r =>
        match pyChoice (data.time_slots.map Prod.fst) (selS i) with
        | none => genInitAux data selT selR selS rest (i + 1)
        | some s => (cid, ⟨t, r, s⟩) :: genInitAux data selT selR selS rest (i + 1)

/-- `SimulatedAnnealing._generate_initial_solution`. -/
def generate_initial_solution (data : TimetableData) (selT selR selS : ℕ → ℕ) : Solution :=
  genInitAux data selT selR selS data.courses 0

end SA

namespace GA

/-! ### Random timetable (`GeneticAlgorithm._generate_random_timetable`) -/

/-- The body of `_generate_random_timetable`'s loop: unlike the SA variant
there is no emptiness guard, so `random.choice` on an empty eligible or
preferred list (or empty time-slot table) raises `IndexError` — modelled as
`none`. -/
def genRandomAux (data : TimetableData) (selT selR selS : ℕ → ℕ) :
    List (String × Course) → ℕ → Option Solution
  | [], _ => some []
  | (cid, c) :: rest, i => do
    let t ← pyChoice c.eligible_teachers (selT i)
    let r ← pyChoice c.preferred_rooms (selR i)
    let s ← pyChoice (data.time_slots.map Prod.fst) (selS i)
    let restSol ← genRandomAux data selT selR selS rest (i + 1)
    return (cid, ⟨t, r, s⟩) :: restSol

/-- `GeneticAlgorithm._generate_random_timetable`. -/
def generate_random_timetable (data : TimetableData) (selT selR selS : ℕ → ℕ) :
    Option Solution :=
  genRandomAux data selT selR selS data.courses 0

/-! ### Crossover (`GeneticAlgorithm._crossover`), by value -/

/-- The child-building loop of `_crossover`: position `i` walks the stable
course ordering, taking the assignment from parent 1 before the cut and
from parent 2 at and after it (`KeyError` on a missing course is `none`). -/
def crossAux (p1 p2 : Solution) (cut : ℕ) : List String → ℕ → Option Solution
  | [], _ => some []
  | cid :: rest, i =>
    (if i < cut then alookup p1 cid else alookup p2 cid).bind fun a =>
      (crossAux p1 p2 cut rest (i + 1)).map fun restSol => (cid, a) :: restSol

/-- `GeneticAlgorithm._crossover`: `doCross` is the outcome of
`random.random() <= crossover_rate` (when false the offspring is a copy of
parent 1), `cut` the value drawn by `random.randint(1, len(courses) - 1)`. -/
def crossover (data : TimetableData) (doCross : Bool) (cut : ℕ) (p1 p2 : Solution) :
    Option Solution :=
  if !doCross then some p1
  else crossAux p1 p2 cut (data.courses.map Prod.fst) 0

end GA

/-! ## Constraint programming (`constraint_programming.py`) -/

namespace CP

/-- `ConstraintProgramming._check_constraints`: the three rejection loops —
teacher occupied at the slot, room occupied at the slot, then for each
student group of the course, any existing assignment whose course shares
that group at the same slot. -/
def check_constraints (data : TimetableData) (sol : Solution)
    (course_id teacher_id room_id time_slot_id : String) : Bool :=
  if sol.any (fun p => p.2.teacher_id == teacher_id && p.2.time_slot_id == time_slot_id) then
    false
  else if sol.any (fun p => p.2.room_id == room_id && p.2.time_slot_id == time_slot_id) then
    false
  else
    match alookup data.courses course_id with
    | none => true
    | some course =>
      !course.student_groups.any (fun gid =>
        sol.any (fun p =>
          match alookup data.courses p.1 with
          | none => false
          | some ec => gid ∈ ec.student_groups && p.2.time_slot_id == time_slot_id))

/-- The `(teacher, room, time slot)` triples enumerated by the nested loops
of `_backtrack` for one course, in loop order. -/
def candidateTriples (data : TimetableData) (c : Course) : List Assignment :=
  c.eligible_teachers.flatMap (fun t =>
    c.preferred_rooms.flatMap (fun r =>
      data.time_slots.map (fun p => Assignment.mk t r p.1)))

/-- First `some` result of `f` along a list (the `for`-loop that returns on
the first successful recursion and otherwise falls through). -/
def firstSome (f : α → Option β) : List α → Option β
  | [] => none
  | a :: l =>
    match f a with
    | some b => some b
    | none => firstSome f l

/-- `ConstraintProgramming._backtrack`: assign the next unassigned course
with the first candidate triple passing `_check_constraints`, recurse, and
try the next triple when the recursion fails; `none` when no triple works.
A course id missing from the course table would be a Python `KeyError`. -/
def backtrack (data : TimetableData) : Solution → List String → Option Solution
  | sol, [] => some sol
  | sol, cid :: rest =>
    match alookup data.courses cid with
    | none => none
    | some course =>
      firstSome (fun a =>
        if check_constraints data sol cid a.teacher_id a.room_id a.time_slot_id then
          backtrack data (sol ++ [(cid, a)]) rest
        else none) (candidateTriples data course)

/-- The constraint-tightness key used to order the courses
(`len(eligible_teachers) * len(preferred_rooms)`, ascending). -/
def tightness (data : TimetableData) (cid : String) : ℕ :=
  match alookup data.courses cid with
  | none => 0
  | some c => c.eligible_teachers.length * c.preferred_rooms.length

/-- `ConstraintProgramming._backtracking_search`. -/
def backtracking_search (data : TimetableData) : Option Solution :=
  backtrack data [] (sortOn (tightness data) (data.courses.map Prod.fst))

/-- One pass of `_iterative_forward_checking`: place every course in turn
with a uniformly random triple among those passing `_check_constraints`
against the partial solution built so far in the pass, recording the
courses that had no compatible triple. -/
def onePassAux (data : TimetableData) (sel : ℕ → ℕ) :
    List (String × Course) → ℕ → Solution → List String → Solution × List String
  | [], _, sol, unassigned => (sol, unassigned)
  | (cid, c) :: rest, i, sol, unassigned =>
    let assignments := (candidateTriples data c).filter (fun a =>
      check_constraints data sol cid a.teacher_id a.room_id a.time_slot_id)
    match pyChoice assignments (sel i) with
    | some a => onePassAux data sel rest (i + 1) (sol ++ [(cid, a)]) unassigned
    | none => onePassAux data sel rest (i + 1) sol (unassigned ++ [cid])

/-- One full pass over the course table. -/
def onePass (data : TimetableData) (sel : ℕ → ℕ) : Solution × List String :=
  onePassAux data sel data.courses 0 [] []

/-- The iteration loop of `_iterative_forward_checking`: keep the pass with
the fewest unassigned courses, stopping early once the count reaches
`max_unassigned`. -/
def ifcAux (data : TimetableData) (sel2 : ℕ → ℕ → ℕ) (maxUnassigned : ℕ) :
    List ℕ → Solution × ℕ → Solution × ℕ
  | [], best => best
  | it :: rest, best =>
    let p := onePass data (sel2 it)
    if p.2.length < best.2 then
      if p.2.length ≤ maxUnassigned then (p.1, p.2.length)
      else ifcAux data sel2 maxUnassigned rest (p.1, p.2.length)
    else ifcAux data sel2 maxUnassigned rest best

/-- `ConstraintProgramming._iterative_forward_checking`, returning the
tracked `(best_solution, best_unassigned)` pair. -/
def iterative_forward_checking (data : TimetableData) (maxIterations maxUnassigned : ℕ)
    (sel2 : ℕ → ℕ → ℕ) : Solution × ℕ :=
  ifcAux data sel2 maxUnassigned (List.range maxIterations) ([], data.courses.length)

/-- `ConstraintProgramming.run`: backtracking for at most 20 courses (its
result is kept only when truthy, i.e. a non-empty dict), iterative forward
checking otherwise or on fallback. -/
def run (data : TimetableData) (maxIterations maxUnassigned : ℕ) (sel2 : ℕ → ℕ → ℕ) :
    Solution :=
  if data.courses.length ≤ 20 then
    match backtracking_search data with
    | some s =>
      if s.isEmpty then (iterative_forward_checking data maxIterations maxUnassigned sel2).1
      else s
    | none => (iterative_forward_checking data maxIterations maxUnassigned sel2).1
  else (iterative_forward_checking data maxIterations maxUnassigned sel2).1

/-! ### The hard-constraint consistency predicate the claims refer to -/

/-- Two courses share a student group (false when either is unknown). -/
def sharesGroupB (data : TimetableData) (c1 c2 : String) : Bool :=
  match alookup data.courses c1, alookup data.courses c2 with
  | some k1, some k2 => k1.student_groups.any (fun g => g ∈ k2.student_groups)
  | _, _ => false

/-- Two solution entries conflict when they share a time slot together with
the teacher, the room, or a common student group of their courses. -/
def conflictB (data : TimetableData) (e1 e2 : String × Assignment) : Bool :=
  (e1.2.time_slot_id == e2.2.time_slot_id) &&
    ((e1.2.teacher_id == e2.2.teacher_id) || (e1.2.room_id == e2.2.room_id) ||
      sharesGroupB data e1.1 e2.1)

/-- Hard-constraint consistency of a solution: no two assignments of
distinct courses conflict. -/
def ConsistentSol (data : TimetableData) (s : Solution) : Prop :=
  ∀ e1 ∈ s, ∀ e2 ∈ s, e1.1 ≠ e2.1 → conflictB data e1 e2 = false

instance (data : TimetableData) (s : Solution) : Decidable (ConsistentSol data s) := by
  unfold ConsistentSol; infer_instance

/-- Membership of every assignment in its course's search domains
(eligible teachers × preferred rooms × all time slots). -/
def fromDomains (data : TimetableData) (s : Solution) : Bool :=
  s.all (fun p =>
    match alookup data.courses p.1 with
    | none => false
    | some c =>
      c.eligible_teachers.contains p.2.teacher_id &&
      c.preferred_rooms.contains p.2.room_id &&
      (data.time_slots.map Prod.fst).contains p.2.time_slot_id)

end CP

/-! ## The store model: solutions as dicts of shared mutable records

`timetable[course_id]` is a mutable dict; `solution.copy()` copies only the
outer mapping, so the per-course records stay shared.  A `PySol` maps each
course id to the reference of its record and a `Heap` holds the records. -/

/-- The store of per-course assignment records; `next` is the next fresh
reference. -/
structure Heap where
  store : ℕ → Assignment
  next : ℕ

/-- A solution by reference: course id ↦ record reference. -/
abbrev PySol := List (String × ℕ)

/-- Overwrite the record at a reference. -/
def hupdate (h : Heap) (r : ℕ) (a : Assignment) : Heap :=
  ⟨fun r' => if r' = r then a else h.store r', h.next⟩

/-- Allocate a fresh record (Python creating a new inner dict). -/
def halloc (h : Heap) (a : Assignment) : Heap × ℕ :=
  (⟨fun r' => if r' = h.next then a else h.store r', h.next + 1⟩, h.next)

/-- The field-by-field contents of a by-reference solution. -/
def view (h : Heap) (s : PySol) : Solution :=
  s.map (fun p => (p.1, h.store p.2))

namespace GA

/-- The per-course loop of `GeneticAlgorithm._mutation`: with probability
`mutation_rate` (outcome `coin i`) pick one field and overwrite it inside
the course's record.  The `teacher`/`room` branches are guarded by list
non-emptiness; the `time_slot` branch is not, so an empty time-slot table
crashes there, as does a course id missing from the course table. -/
def mutationAux (data : TimetableData) (coin : ℕ → Bool) (mtype pick : ℕ → ℕ) :
    List (String × ℕ) → ℕ → Heap → Option Heap
  | [], _, h => some h
  | (cid, r) :: rest, i, h =>
    if coin i then
      match alookup data.courses cid with
      | none => none
      | some course =>
        if mtype i % 3 = 0 then
          match pyChoice course.eligible_teachers (pick i) with
          | some t => mutationAux data coin mtype pick rest (i + 1)
              (hupdate h r { h.store r with teacher_id := t })
          | none => mutationAux data coin mtype pick rest (i + 1) h
        else if mtype i % 3 = 1 then
          match pyChoice course.preferred_rooms (pick i) with
          | some rm => mutationAux data coin mtype pick rest (i + 1)
              (hupdate h r { h.store r with room_id := rm })
          | none => mutationAux data coin mtype pick rest (i + 1) h
        else
          match pyChoice (data.time_slots.map Prod.fst) (pick i) with
          | some s => mutationAux data coin mtype pick rest (i + 1)
              (hupdate h r { h.store r with time_slot_id := s })
          | none => none
    else mutationAux data coin mtype pick rest (i + 1) h

/-- `GeneticAlgorithm._mutation`: iterate the per-course loop over the
input timetable and `return timetable` — the very same mapping. -/
def mutation (data : TimetableData) (coin : ℕ → Bool) (mtype pick : ℕ → ℕ)
    (h : Heap) (t : PySol) : Option (Heap × PySol) :=
  (mutationAux data coin mtype pick t 0 h).map (fun h' => (h', t))

/-- The child-building loop of `_crossover` on the store: each inherited
record is `.copy()`-ed into a freshly allocated record. -/
def crossHAux (p1 p2 : PySol) (cut : ℕ) : List String → ℕ → Heap → Option (Heap × PySol)
  | [], _, h => some (h, [])
  | cid :: rest, i, h =>
    (if i < cut then alookup p1 cid else alookup p2 cid).bind fun r =>
      (crossHAux p1 p2 cut rest (i + 1) (halloc h (h.store r)).1).map fun tail =>
        (tail.1, (cid, (halloc h (h.store r)).2) :: tail.2)

/-- `GeneticAlgorithm._crossover` on the store: without crossover the child
is `parent1.copy()` — a new outer mapping sharing parent 1's records. -/
def crossoverH (data : TimetableData) (doCross : Bool) (cut : ℕ) (h : Heap)
    (p1 p2 : PySol) : Option (Heap × PySol) :=
  if !doCross then some (h, p1)
  else crossHAux p1 p2 cut (data.courses.map Prod.fst) 0 h

end GA

namespace SA

/-- The random draws of one SA iteration: the course pick, the
field-to-modify pick, the fresh-value pick, and the outcome of the
Metropolis comparison for a strictly worse neighbor. -/
structure Draws where
  pickC : ℕ
  pickM : ℕ
  pickV : ℕ
  accept_worse : Bool

/-- `SimulatedAnnealing._generate_neighbor`: `neighbor = solution.copy()`
shares every per-course record with the input, and the perturbation writes
one field through the shared record.  `random.choice` over the keys of an
empty solution (with a non-empty course table) is a crash. -/
def generate_neighbor (data : TimetableData) (o : Draws) (h : Heap) (s : PySol) :
    Option (Heap × PySol) :=
  if data.courses.isEmpty then some (h, s)
  else
    match pyChoice (s.map Prod.fst) o.pickC with
    | none => none
    | some cid =>
      match alookup s cid with
      | none => none
      | some r =>
        match alookup data.courses cid with
        | none => some (h, s)
        | some course =>
          if o.pickM % 3 = 0 then
            match pyChoice course.eligible_teachers o.pickV with
            | some t => some (hupdate h r { h.store r with teacher_id := t }, s)
            | none => some (h, s)
          else if o.pickM % 3 = 1 then
            match pyChoice course.preferred_rooms o.pickV with
            | some rm => some (hupdate h r { h.store r with room_id := rm }, s)
            | none => some (h, s)
          else
            match pyChoice (data.time_slots.map Prod.fst) o.pickV with
            | some ts => some (hupdate h r { h.store r with time_slot_id := ts }, s)
            | none => some (h, s)

/-- The loop state of `SimulatedAnnealing.run`. -/
structure SAState where
  heap : Heap
  current_solution : PySol
  current_cost : ℕ
  best_solution : PySol
  best_cost : ℕ

/-- One iteration of `SimulatedAnnealing.run`'s loop: generate a neighbor,
cost it, accept it always when not strictly worse (the acceptance
probability is then 1) and otherwise according to the Metropolis draw; on
acceptance update the current state and, when the neighbor strictly beats
`best_cost`, the best state (`neighbor.copy()` shares records). -/
def saStep (data : TimetableData) (o : Draws) (st : SAState) : Option SAState := do
  let n ← generate_neighbor data o st.heap st.current_solution
  let neighbor_cost := calculate_cost data (view n.1 n.2)
  let accepted := neighbor_cost ≤ st.current_cost || o.accept_worse
  if accepted then
    if neighbor_cost < st.best_cost then
      return ⟨n.1, n.2, neighbor_cost, n.2, neighbor_cost⟩
    else
      return ⟨n.1, n.2, neighbor_cost, st.best_solution, st.best_cost⟩
  else
    return ⟨n.1, st.current_solution, st.current_cost, st.best_solution, st.best_cost⟩

/-- Iterations `i, i+1, …, i+n-1` of `SimulatedAnnealing.run`'s loop. -/
def saRunFrom (data : TimetableData) (o : ℕ → Draws) : ℕ → ℕ → SAState → Option SAState
  | _, 0, st => some st
  | i, n + 1, st => (saStep data (o i) st).bind (saRunFrom data o (i + 1) n)

/-- The first `n` iterations of `SimulatedAnnealing.run`'s loop. -/
def saRunN (data : TimetableData) (o : ℕ → Draws) (n : ℕ) (st : SAState) : Option SAState :=
  saRunFrom data o 0 n st

end SA

/-! ## Concrete reference data used to evaluate the claims -/

/-- The trivial selector (always draw index 0). -/
def selZ : ℕ → ℕ := fun _ => 0

/-- A selector pair for the forward-checking iterations. -/
def selZ2 : ℕ → ℕ → ℕ := fun _ _ => 0

/-- One mentor teacher, nothing else. -/
def dMentorOnly : TimetableData :=
  { teachers := [("t1", ⟨true⟩)], courses := [], time_slots := [], student_groups := [] }

/-- Two mentor-free teachers, two courses, two slots. -/
def dNoMentor : TimetableData :=
  { teachers := [("t1", ⟨false⟩), ("t2", ⟨false⟩)],
    courses := [("c1", ⟨2, ["r1"], ["t1"], []⟩), ("c2", ⟨2, ["r1"], ["t1"], []⟩)],
    time_slots := [("s1", ⟨"Mon", 540, 600⟩), ("s2", ⟨"Mon", 600, 660⟩)],
    student_groups := [] }

/-- A solution over `dNoMentor` with a teacher overlap and a room overlap. -/
def solNoMentor : Solution :=
  [("c1", ⟨"t1", "r1", "s1"⟩), ("c2", ⟨"t1", "r1", "s1"⟩)]

/-- One teacher with two same-day, back-to-back sessions (09:00–10:00 and
10:00–11:00) in different rooms and distinct slots. -/
def dB2B : TimetableData :=
  { teachers := [("t1", ⟨false⟩)],
    courses := [("c1", ⟨12, ["r1"], ["t1"], []⟩), ("c2", ⟨12, ["r2"], ["t1"], []⟩)],
    time_slots := [("s1", ⟨"Mon", 540, 600⟩), ("s2", ⟨"Mon", 600, 660⟩)],
    student_groups := [] }

/-- The back-to-back solution over `dB2B`. -/
def solB2B : Solution :=
  [("c1", ⟨"t1", "r1", "s1"⟩), ("c2", ⟨"t1", "r2", "s2"⟩)]

/-- The satisfiable toy instance of the spec's testable properties: two
courses, two teachers, two rooms, two time slots, no shared groups. -/
def dToy : TimetableData :=
  { teachers := [("t1", ⟨false⟩), ("t2", ⟨false⟩)],
    courses := [("c1", ⟨2, ["r1", "r2"], ["t1", "t2"], ["g1"]⟩),
                ("c2", ⟨2, ["r1", "r2"], ["t1", "t2"], ["g2"]⟩)],
    time_slots := [("s1", ⟨"Mon", 540, 600⟩), ("s2", ⟨"Mon", 600, 660⟩)],
    student_groups := [("g1", ⟨["x1"], ["c1"]⟩), ("g2", ⟨["x2"], ["c2"]⟩)] }

/-- The over-constrained instance of the spec's testable properties: one
time slot, two courses requiring the same teacher. -/
def dOver : TimetableData :=
  { teachers := [("t1", ⟨false⟩)],
    courses := [("c1", ⟨2, ["r1"], ["t1"], []⟩), ("c2", ⟨2, ["r2"], ["t1"], []⟩)],
    time_slots := [("s1", ⟨"Mon", 540, 600⟩)],
    student_groups := [] }

/-- A course with empty eligible-teacher and preferred-room lists next to a
normal course. -/
def dEmptyLists : TimetableData :=
  { teachers := [("t1", ⟨false⟩)],
    courses := [("c1", ⟨2, [], [], []⟩), ("c2", ⟨2, ["r1"], ["t1"], []⟩)],
    time_slots := [("s1", ⟨"Mon", 540, 600⟩)],
    student_groups := [] }

/-- Three courses for the crossover claims. -/
def dThree : TimetableData :=
  { teachers := [("t1", ⟨false⟩), ("t2", ⟨false⟩)],
    courses := [("c1", ⟨2, ["r1"], ["t1"], []⟩), ("c2", ⟨2, ["r1"], ["t1"], []⟩),
                ("c3", ⟨2, ["r1"], ["t1"], []⟩)],
    time_slots := [("s1", ⟨"Mon", 540, 600⟩), ("s2", ⟨"Mon", 600, 660⟩)],
    student_groups := [] }

/-- First parent over `dThree`. -/
def parent1W : Solution :=
  [("c1", ⟨"t1", "r1", "s1"⟩), ("c2", ⟨"t1", "r1", "s2"⟩), ("c3", ⟨"t2", "r1", "s1"⟩)]

/-- Second parent over `dThree`, in a different insertion order. -/
def parent2W : Solution :=
  [("c3", ⟨"t2", "r1", "s2"⟩), ("c1", ⟨"t2", "r1", "s1"⟩), ("c2", ⟨"t2", "r1", "s1"⟩)]

/-- One course whose record sits at reference 0. -/
def dMut : TimetableData :=
  { teachers := [("t1", ⟨false⟩), ("t2", ⟨false⟩)],
    courses := [("c1", ⟨2, ["r1"], ["t1", "t2"], []⟩)],
    time_slots := [("s1", ⟨"Mon", 540, 600⟩)],
    student_groups := [] }

/-- A store holding the record `("t1", "r1", "s1")` everywhere. -/
def hMut : Heap := ⟨fun _ => ⟨"t1", "r1", "s1"⟩, 1⟩

/-- The timetable handed to `_mutation`: course `c1` at reference 0. -/
def tMut : PySol := [("c1", 0)]

/-- Store-level parents over `dMut`'s course (both at reference 0). -/
def pH1W : PySol := [("c1", 0)]

/-- Second store-level parent, same shared record. -/
def pH2W : PySol := [("c1", 0)]

/-- The crossover-branch result of `_crossover` on the store parents. -/
def crossHW : Heap × PySol :=
  (GA.crossoverH dMut true 1 hMut pH1W pH2W).getD (hMut, [])

/-- Two courses of one teacher at distinct slots; records at references
0 and 1. -/
def dSA : TimetableData :=
  { teachers := [("t1", ⟨false⟩)],
    courses := [("c1", ⟨2, ["r1"], ["t1"], []⟩), ("c2", ⟨2, ["r2"], ["t1"], []⟩)],
    time_slots := [("s1", ⟨"Mon", 540, 600⟩), ("s2", ⟨"Mon", 600, 660⟩)],
    student_groups := [] }

/-- The store for the SA run: reference 0 at slot `s1`, reference 1 at
slot `s2`. -/
def hSA : Heap :=
  ⟨fun r => if r = 0 then ⟨"t1", "r1", "s1"⟩ else ⟨"t1", "r2", "s2"⟩, 2⟩

/-- The current (= best) solution of the SA run state. -/
def curSA : PySol := [("c1", 0), ("c2", 1)]

/-- A conflict-free SA loop state over `dSA` (stored costs are exact). -/
def stSA : SA.SAState := ⟨hSA, curSA, 0, curSA, 0⟩

/-- Draws that perturb course `c2`'s time slot to `s1` (making the neighbor
strictly worse) and reject it. -/
def oSA : SA.Draws := ⟨1, 2, 0, false⟩

/-- The same draws at every iteration. -/
def oSAfn : ℕ → SA.Draws := fun _ => oSA

/-- The neighbor produced from `stSA` by the draws `oSA`. -/
def nbSA : Heap × PySol :=
  (SA.generate_neighbor dSA oSA hSA curSA).getD (hSA, [])

/-- The SA state after one iteration from `stSA` under the draws `oSA`. -/
def stSA1 : SA.SAState := (SA.saRunN dSA oSAfn 1 stSA).getD stSA

/-- The result of backtracking search on the toy instance. -/
def sToy : Solution := (CP.backtracking_search dToy).getD []

/-! # Theorems -/

/-! ## Shared helper lemmas -/

theorem alookup_isSome_of_mem {β : Type} {l : List (String × β)} {c : String}
    (h : c ∈ l.map Prod.fst) : (alookup l c).isSome := by
  induction l with
  | nil => simp at h
  | cons p rest ih =>
    by_cases hc : c = p.1
    · simp [alookup, hc]
    · simp only [alookup, if_neg hc]
      simp only [List.map_cons, List.mem_cons, hc, false_or] at h
      exact ih h

theorem alookup_mem {β : Type} {l : List (String × β)} {c : String} {v : β}
    (h : alookup l c = some v) : (c, v) ∈ l := by
  induction l with
  | nil => simp [alookup] at h
  | cons p rest ih =>
    by_cases hc : c = p.1
    · subst hc
      simp [alookup] at h
      subst h
      simp
    · simp [alookup, hc] at h
      exact List.mem_cons_of_mem _ (ih h)

/-! ## C1: the GA overlap loops add 100 where the SA loops count 1 -/

theorem ga_sa_overlapAux (proj : Assignment → String) (sol : Solution) :
    ∀ seen, GA.overlapPenaltyAux proj seen sol = 100 * SA.overlapAux proj seen sol := by
  induction sol with
  | nil => intro seen; simp [GA.overlapPenaltyAux, SA.overlapAux]
  | cons e rest ih =>
    intro seen
    obtain ⟨c, a⟩ := e
    simp only [GA.overlapPenaltyAux, SA.overlapAux]
    by_cases hmem : a.time_slot_id ∈ (alookup seen (proj a)).getD []
    · simp only [if_pos hmem, ih]
      ring
    · simp only [if_neg hmem, ih]

theorem sa_mentorInit_nil {teachers : List (String × Teacher)}
    (h : ∀ p ∈ teachers, p.2.is_mentor = false) : SA.mentorInit teachers = [] := by
  unfold SA.mentorInit
  rw [List.filterMap_eq_nil_iff]
  intro p hp
  simp [h p hp]

theorem ga_mentorInit_nil {teachers : List (String × Teacher)}
    (h : ∀ p ∈ teachers, p.2.is_mentor = false) : GA.mentorInit teachers = [] := by
  unfold GA.mentorInit
  rw [List.filterMap_eq_nil_iff]
  intro p hp
  simp [h p hp]

theorem sa_mentorStep_nil (data : TimetableData) (e : String × Assignment) :
    SA.mentorStep data [] e = [] := by
  simp [SA.mentorStep, alookup]

theorem sa_mentorFold_nil (data : TimetableData) (sol : Solution) :
    sol.foldl (SA.mentorStep data) [] = [] := by
  induction sol with
  | nil => rfl
  | cons e rest ih => rw [List.foldl_cons, sa_mentorStep_nil, ih]

theorem ga_mentorInner_nil (p : String × StudentGroup) (sol : Solution) :
    sol.foldl (fun m2 q =>
      if q.1 ∈ p.2.courses then
        if (alookup m2 q.2.teacher_id).isSome then
          updateA m2 q.2.teacher_id (fun n => n + p.2.students.length)
        else m2
      else m2) [] = [] := by
  induction sol with
  | nil => rfl
  | cons e rest ih =>
    rw [List.foldl_cons]
    have : (if e.1 ∈ p.2.courses then
        if (alookup ([] : List (String × ℕ)) e.2.teacher_id).isSome then
          updateA [] e.2.teacher_id (fun n => n + p.2.students.length)
        else ([] : List (String × ℕ))
      else []) = [] := by simp [alookup]
    rw [this, ih]

/-- Claim C1 (counterexample): on a data set with one mentor teacher and the
empty solution, the GA fitness (−200, mentor weight 50) is not the negation
of the SA cost (400, mentor weight 100). -/
theorem c1_counterexample :
    GA.calculate_fitness dMentorOnly [] ≠ -(SA.calculate_cost dMentorOnly [] : ℤ) := by
  decide

/-- Claim C1 (amended): on reference data without mentor-flagged teachers,
`GeneticAlgorithm._calculate_fitness` is exactly the negation of
`SimulatedAnnealing._calculate_cost`; the two evaluators differ only in the
mentor-group term (weight 50 on a with-multiplicity count in the GA, weight
100 on a distinct-student count in the SA). -/
theorem c1_amended (data : TimetableData) (sol : Solution)
    (h : ∀ p ∈ data.teachers, p.2.is_mentor = false) :
    GA.calculate_fitness data sol = -(SA.calculate_cost data sol : ℤ) := by
  have hga : GA.mentorCounts data sol = [] := by
    unfold GA.mentorCounts
    rw [ga_mentorInit_nil h]
    induction data.student_groups with
    | nil => rfl
    | cons p rest ih => rw [List.foldl_cons, ga_mentorInner_nil, ih]
  have hsa : SA.mentorStudents data sol = [] := by
    unfold SA.mentorStudents
    rw [sa_mentorInit_nil h, sa_mentorFold_nil]
  simp only [GA.calculate_fitness, SA.calculate_cost, GA.mentorPenalty,
    SA.mentorViolations, hga, hsa, List.foldl_nil, GA.overlapPenalty,
    SA.overlapViolations, ga_sa_overlapAux]
  push_cast
  ring

/-- Claim C1 (amended, instance): witness at mentor-free data with genuine
teacher and room overlaps. -/
theorem c1_amended_witness :
    (∀ p ∈ dNoMentor.teachers, p.2.is_mentor = false) ∧
    GA.calculate_fitness dNoMentor solNoMentor = -(SA.calculate_cost dNoMentor solNoMentor : ℤ) :=
  ⟨by decide, c1_amended dNoMentor solNoMentor (by decide)⟩

/-! ## C2: the SA cost drops the soft-constraint terms -/

/-- Claim C2 (code bug): on a solution with one back-to-back pair (and no
hard violations, a single teacher, hence zero load deviation) the canonical
spec formula gives 50 while `SimulatedAnnealing._calculate_cost` gives 0 —
the method initializes the `back_to_back_sessions` and
`equitable_teaching_load` counters but never updates them. -/
theorem c2_soft_terms_dropped :
    SA.calculate_cost dB2B solB2B = 0 ∧ Spec.totalCost dB2B solB2B = 50 := by
  constructor
  · decide
  · have hov1 : Spec.overlapCount (fun a => a.teacher_id) solB2B = 0 := by decide
    have hov2 : Spec.overlapCount (fun a => a.room_id) solB2B = 0 := by decide
    have hm : Spec.mentorDeviation dB2B solB2B = 0 := by decide
    have hb : Spec.backToBackCount dB2B solB2B = 1 := by decide
    have hw : Spec.weeklyHours dB2B solB2B "t1" = 24 := by decide
    have he : Spec.equitableLoad dB2B solB2B = 0 := by
      unfold Spec.equitableLoad
      norm_num [dB2B, hw, Real.sqrt_zero]
    rw [Spec.totalCost, hov1, hov2, hm, hb, he]

/-! ## C4: the acceptance probability -/

/-- Claim C4: for positive temperature, the SA acceptance probability is
exactly 1 for a strictly better neighbor, is
`exp((current − new)/temperature)` otherwise, and on the non-improving side
is strictly decreasing in the neighbor's cost. -/
theorem c4_acceptance_probability :
    ∀ current_cost new_cost temperature : ℝ, 0 < temperature →
    ((new_cost < current_cost →
        SA.acceptance_probability current_cost new_cost temperature = 1) ∧
     (¬ new_cost < current_cost →
        SA.acceptance_probability current_cost new_cost temperature =
          Real.exp ((current_cost - new_cost) / temperature)) ∧
     (∀ n1 n2 : ℝ, current_cost ≤ n1 → n1 < n2 →
        SA.acceptance_probability current_cost n2 temperature <
          SA.acceptance_probability current_cost n1 temperature)) := by
  intro c n T hT
  refine ⟨fun h => by simp [SA.acceptance_probability, h],
          fun h => by simp [SA.acceptance_probability, h], ?_⟩
  intro n1 n2 h1 h2
  have hn1 : ¬ n1 < c := not_lt.mpr h1
  have hn2 : ¬ n2 < c := not_lt.mpr (h1.trans h2.le)
  simp only [SA.acceptance_probability, if_neg hn1, if_neg hn2]
  apply Real.exp_lt_exp.mpr
  rw [div_lt_div_iff_of_pos_right hT]
  linarith

/-- Claim C4 (instance): strict decrease evaluated at costs 2 < 3,
temperature 1. -/
theorem c4_witness :
    SA.acceptance_probability 1 3 1 < SA.acceptance_probability 1 2 1 :=
  (c4_acceptance_probability 1 0 1 one_pos).2.2 2 3 one_le_two (by norm_num)

/-! ## C7: degenerate courses — SA skips, GA crashes -/

/-- Claim C7 (code bug): on data whose first course has empty
eligible-teacher and preferred-room lists, `_generate_random_timetable`
crashes (`random.choice([])`) for every possible draw, while
`_generate_initial_solution` skips the course and returns the rest. -/
theorem c7_degenerate_course :
    (∀ selT selR selS : ℕ → ℕ,
        GA.generate_random_timetable dEmptyLists selT selR selS = none) ∧
    (∀ selT selR selS : ℕ → ℕ,
        SA.generate_initial_solution dEmptyLists selT selR selS =
          [("c2", ⟨"t1", "r1", "s1"⟩)]) := by
  constructor
  · intro selT selR selS
    simp [GA.generate_random_timetable, GA.genRandomAux, dEmptyLists, pyChoice]
  · intro selT selR selS
    simp [SA.generate_initial_solution, SA.genInitAux, dEmptyLists, pyChoice]

/-! ## C5: single-point crossover -/

theorem crossAux_spec (p1 p2 : Solution) (cut : ℕ) :
    ∀ (l : List String) (i : ℕ), l.Nodup →
      (∀ cid ∈ l, (alookup p1 cid).isSome) →
      (∀ cid ∈ l, (alookup p2 cid).isSome) →
      ∃ child, GA.crossAux p1 p2 cut l i = some child ∧
        child.map Prod.fst = l ∧
        ∀ cid ∈ l, alookup child cid =
          if i + l.indexOf cid < cut then alookup p1 cid else alookup p2 cid := by
  intro l
  induction l with
  | nil => intro i _ _ _; exact ⟨[], rfl, rfl, by simp⟩
  | cons cid rest ih =>
    intro i hnd h1 h2
    have ha : ∃ a, (if i < cut then alookup p1 cid else alookup p2 cid) = some a := by
      split
      · exact Option.isSome_iff_exists.mp (h1 cid (List.mem_cons_self _ _))
      · exact Option.isSome_iff_exists.mp (h2 cid (List.mem_cons_self _ _))
    obtain ⟨a, ha⟩ := ha
    obtain ⟨child', heq', hkeys', hlook'⟩ :=
      ih (i + 1) (List.Nodup.of_cons hnd) (fun c hc => h1 c (List.mem_cons_of_mem _ hc))
        (fun c hc => h2 c (List.mem_cons_of_mem _ hc))
    refine ⟨(cid, a) :: child', ?_, ?_, ?_⟩
    · simp only [GA.crossAux, ha, Option.some_bind, heq', Option.map_some']
    · simp [hkeys']
    · intro c hc
      rcases List.mem_cons.mp hc with hceq | hcmem
      · subst hceq
        simp only [alookup, if_pos rfl, List.indexOf_cons_self, Nat.add_zero]
        exact ha.symm
      · have hne : c ≠ cid := by
          rintro rfl
          exact (List.nodup_cons.mp hnd).1 hcmem
        have hidx : i + (cid :: rest).indexOf c = (i + 1) + rest.indexOf c := by
          rw [List.indexOf_cons_ne _ (fun h => hne h.symm)]
          omega
        rw [alookup, if_neg hne, hidx]
        exact hlook' c hcmem

/-- Claim C5: `_crossover` copies parent 1 when the crossover coin fails;
otherwise the offspring's course list is exactly the stable course
ordering (hence a permutation of the parents' course sets) and each
course's assignment comes from parent 1 before the cut and from parent 2
at and after it. -/
theorem c5_crossover (data : TimetableData) (p1 p2 : Solution) (cut : ℕ)
    (hnd : (data.courses.map Prod.fst).Nodup)
    (h1 : ∀ cid ∈ data.courses.map Prod.fst, (alookup p1 cid).isSome)
    (h2 : ∀ cid ∈ data.courses.map Prod.fst, (alookup p2 cid).isSome)
    (hk1 : List.Perm (p1.map Prod.fst) (data.courses.map Prod.fst))
    (hcut1 : 1 ≤ cut) (hcut2 : cut ≤ (data.courses.map Prod.fst).length - 1) :
    GA.crossover data false cut p1 p2 = some p1 ∧
    ∃ child, GA.crossover data true cut p1 p2 = some child ∧
      child.map Prod.fst = data.courses.map Prod.fst ∧
      List.Perm (child.map Prod.fst) (p1.map Prod.fst) ∧
      ∀ cid ∈ data.courses.map Prod.fst,
        alookup child cid =
          if (data.courses.map Prod.fst).indexOf cid < cut then alookup p1 cid
          else alookup p2 cid := by
  refine ⟨by simp [GA.crossover], ?_⟩
  obtain ⟨child, heq, hkeys, hlook⟩ := crossAux_spec p1 p2 cut (data.courses.map Prod.fst) 0 hnd h1 h2
  refine ⟨child, by simpa [GA.crossover] using heq, hkeys, ?_, ?_⟩
  · rw [hkeys]
    exact hk1.symm
  · intro cid hc
    have := hlook cid hc
    simpa using this

/-- Claim C5 (instance): the copy branch evaluated on the three-course
parents. -/
theorem c5_witness :
    GA.crossover dThree false 1 parent1W parent2W = some parent1W :=
  (c5_crossover dThree parent1W parent2W 1 (by decide) (by decide) (by decide)
    (by decide) (by decide) (by decide)).1

/-! ## C8: mutation works in place, crossover copies -/

/-- Claim C8 (counterexample): with the mutation coin true for the single
course and the teacher draw picking `t2`, `_mutation` leaves the input
timetable pointing at the mutated record — its post-call contents differ
from its pre-call contents, refuting that the input is left unchanged. -/
theorem c8_counterexample :
    (GA.mutation dMut (fun _ => true) (fun _ => 0) (fun _ => 1) hMut tMut).map
        (fun p => view p.1 tMut) ≠ some (view hMut tMut) := by
  decide

theorem crossHAux_preserves (p1 p2 : PySol) (cut : ℕ) :
    ∀ (l : List String) (i : ℕ) (h : Heap) (res : Heap × PySol),
      GA.crossHAux p1 p2 cut l i h = some res →
      h.next ≤ res.1.next ∧ ∀ r < h.next, res.1.store r = h.store r := by
  intro l
  induction l with
  | nil =>
    intro i h res hres
    simp only [GA.crossHAux, Option.some.injEq] at hres
    subst hres
    exact ⟨le_refl _, fun r _ => rfl⟩
  | cons cid rest ih =>
    intro i h res hres
    simp only [GA.crossHAux] at hres
    rcases hr : (if i < cut then alookup p1 cid else alookup p2 cid) with _ | r
    · rw [hr] at hres; exact absurd hres (by simp)
    · rw [hr, Option.some_bind] at hres
      rcases htail : GA.crossHAux p1 p2 cut rest (i + 1) (halloc h (h.store r)).1 with _ | tail
      · rw [htail] at hres; exact absurd hres (by simp)
      · rw [htail, Option.map_some'] at hres
        simp only [Option.some.injEq] at hres
        subst hres
        obtain ⟨hn, hs⟩ := ih (i + 1) (halloc h (h.store r)).1 tail htail
        constructor
        · exact le_trans (Nat.le_succ _) hn
        · intro q hq
          have hq' : q < (halloc h (h.store r)).1.next := Nat.lt_succ_of_lt hq
          rw [hs q hq']
          simp only [halloc]
          rw [if_neg (Nat.ne_of_lt hq)]

/-- Claim C8 (amended): `_crossover` leaves both parents' records unchanged
(its crossover branch copies each inherited record into a fresh one), but
`_mutation` works in place — it returns the very same course map it was
given, whose records now reflect the mutations, rather than leaving its
input at its pre-call value. -/
theorem c8_amended :
    (∀ (data : TimetableData) (coin : ℕ → Bool) (mtype pick : ℕ → ℕ) (h : Heap)
        (t : PySol) (res : Heap × PySol),
        GA.mutation data coin mtype pick h t = some res → res.2 = t) ∧
    (∀ (data : TimetableData) (doCross : Bool) (cut : ℕ) (h : Heap) (p1 p2 : PySol)
        (res : Heap × PySol),
        GA.crossoverH data doCross cut h p1 p2 = some res →
        (∀ r ∈ p1.map Prod.snd, r < h.next) → (∀ r ∈ p2.map Prod.snd, r < h.next) →
        view res.1 p1 = view h p1 ∧ view res.1 p2 = view h p2) := by
  constructor
  · intro data coin mtype pick h t res hres
    simp only [GA.mutation, Option.map_eq_some'] at hres
    obtain ⟨h', _, hres⟩ := hres
    rw [← hres]
  · intro data doCross cut h p1 p2 res hres hp1 hp2
    by_cases hdc : doCross
    · simp only [GA.crossoverH, hdc, Bool.not_true, Bool.false_eq_true, if_false] at hres
      obtain ⟨-, hs⟩ := crossHAux_preserves p1 p2 cut (data.courses.map Prod.fst) 0 h res hres
      constructor
      · unfold view
        apply List.map_congr_left
        intro p hp
        rw [hs p.2 (hp1 p.2 (List.mem_map_of_mem Prod.snd hp))]
      · unfold view
        apply List.map_congr_left
        intro p hp
        rw [hs p.2 (hp2 p.2 (List.mem_map_of_mem Prod.snd hp))]
    · simp only [GA.crossoverH, hdc, Bool.not_false, if_true, Option.some.injEq] at hres
      subst hres
      exact ⟨rfl, rfl⟩

/-- Claim C8 (amended, instance): the crossover branch on the store-level
parents leaves both parents' contents unchanged. -/
theorem c8_amended_witness :
    view crossHW.1 pH1W = view hMut pH1W ∧ view crossHW.1 pH2W = view hMut pH2W :=
  c8_amended.2 dMut true 1 hMut pH1W pH2W crossHW rfl (by decide) (by decide)

/-! ## C9: best_cost is monotonically non-increasing -/

theorem saStep_best_le (data : TimetableData) (o : SA.Draws) (st st' : SA.SAState)
    (h : SA.saStep data o st = some st') : st'.best_cost ≤ st.best_cost := by
  unfold SA.saStep at h
  rcases hg : SA.generate_neighbor data o st.heap st.current_solution with _ | n
  · rw [hg] at h
    exact absurd h (by simp [bind])
  · rw [hg] at h
    simp only [bind, Option.some_bind ] at h
    split_ifs at h with hacc hlt
    · cases h
      exact le_of_lt hlt
    · cases h
      exact le_refl _
    · cases h
      exact le_refl _

theorem saRunFrom_best_le (data : TimetableData) (o : ℕ → SA.Draws) :
    ∀ (n i : ℕ) (st st' : SA.SAState),
      SA.saRunFrom data o i n st = some st' → st'.best_cost ≤ st.best_cost := by
  intro n
  induction n with
  | zero =>
    intro i st st' h
    simp only [SA.saRunFrom, Option.some.injEq] at h
    subst h
    exact le_refl _
  | succ n ih =>
    intro i st st' h
    simp only [SA.saRunFrom] at h
    rcases hs : SA.saStep data (o i) st with _ | mid
    · rw [hs] at h; exact absurd h (by simp)
    · rw [hs] at h
      simp only [Option.some_bind ] at h
      exact le_trans (ih (i + 1) mid st' h) (saStep_best_le data (o i) st mid hs)

theorem saRunFrom_add (data : TimetableData) (o : ℕ → SA.Draws) :
    ∀ (m k i : ℕ) (st : SA.SAState),
      SA.saRunFrom data o i (m + k) st =
        (SA.saRunFrom data o i m st).bind (SA.saRunFrom data o (i + m) k) := by
  intro m
  induction m with
  | zero =>
    intro k i st
    simp [SA.saRunFrom]
  | succ m ih =>
    intro k i st
    have hnum : m + 1 + k = (m + k) + 1 := by omega
    rw [hnum]
    simp only [SA.saRunFrom]
    rcases hs : SA.saStep data (o i) st with _ | mid
    · simp
    · simp only [Option.some_bind ]
      rw [ih k (i + 1) mid]
      have : i + 1 + m = i + (m + 1) := by omega
      rw [this]

/-- Claim C9: along any run of `SimulatedAnnealing.run`'s loop — any data,
any random draws, any starting state, any numbers of iterations `m ≤ n` —
the stored `best_cost` after `n` iterations is at most the stored
`best_cost` after `m` iterations. -/
theorem c9_best_cost_monotone :
    ∀ (data : TimetableData) (o : ℕ → SA.Draws) (m n : ℕ) (st stm stn : SA.SAState),
      m ≤ n → SA.saRunN data o m st = some stm → SA.saRunN data o n st = some stn →
      stn.best_cost ≤ stm.best_cost := by
  intro data o m n st stm stn hmn hm hn
  obtain ⟨k, rfl⟩ := Nat.exists_eq_add_of_le hmn
  unfold SA.saRunN at hm hn
  rw [saRunFrom_add data o m k 0 st, hm] at hn
  simp only [Option.some_bind , Nat.zero_add] at hn
  exact saRunFrom_best_le data o k m stm stn hn

/-- Claim C9 (instance): one rejected iteration from the concrete SA state
keeps `best_cost` at 0. -/
theorem c9_witness : stSA1.best_cost ≤ stSA.best_cost :=
  c9_best_cost_monotone dSA oSAfn 0 1 stSA stSA stSA1 (Nat.zero_le 1) rfl rfl

/-! ## C10: neighbor generation aliases its input -/

/-- Claim C10: `_generate_neighbor` returns a shallow copy sharing every
per-course record with its input, so after the call the input solution is
field-by-field equal to the returned neighbor; consequently one rejected
iteration of `run` leaves the stored `current_cost` (0) different from the
recomputed cost of the current solution (100), and the pre-iteration
current solution is not restored. -/
theorem c10_neighbor_aliasing :
    (∀ (data : TimetableData) (o : SA.Draws) (h : Heap) (s : PySol) (res : Heap × PySol),
        SA.generate_neighbor data o h s = some res → view res.1 s = view res.1 res.2) ∧
    (SA.saStep dSA oSA stSA).map
        (fun st => (st.current_cost, SA.calculate_cost dSA (view st.heap st.current_solution))) =
      some (0, 100) ∧
    (SA.saStep dSA oSA stSA).map (fun st => view st.heap st.current_solution) ≠
      some (view stSA.heap stSA.current_solution) := by
  refine ⟨?_, by decide, by decide⟩
  intro data o h s res hres
  have h2 : res.2 = s := by
    unfold SA.generate_neighbor at hres
    repeat' split at hres
    all_goals
      first
      | (cases hres; rfl)
      | exact absurd hres (by simp)
  rw [h2]

/-- Claim C10 (instance): the concrete neighbor of the SA state shares its
contents with the input solution. -/
theorem c10_witness : view nbSA.1 curSA = view nbSA.1 nbSA.2 :=
  c10_neighbor_aliasing.1 dSA oSA hSA curSA nbSA rfl

/-! ## C3: backtracking search — soundness and completeness -/

theorem sharesGroupB_symm (data : TimetableData) (c1 c2 : String) :
    CP.sharesGroupB data c1 c2 = CP.sharesGroupB data c2 c1 := by
  unfold CP.sharesGroupB
  rcases h1 : alookup data.courses c1 with _ | k1 <;>
    rcases h2 : alookup data.courses c2 with _ | k2 <;> try rfl
  show k1.student_groups.any (fun g => g ∈ k2.student_groups) =
    k2.student_groups.any (fun g => g ∈ k1.student_groups)
  rw [Bool.eq_iff_iff]
  simp only [List.any_eq_true, decide_eq_true_eq]
  exact ⟨fun ⟨g, hg1, hg2⟩ => ⟨g, hg2, hg1⟩, fun ⟨g, hg1, hg2⟩ => ⟨g, hg2, hg1⟩⟩

theorem conflictB_eq_true_iff (data : TimetableData) (e1 e2 : String × Assignment) :
    CP.conflictB data e1 e2 = true ↔
    e1.2.time_slot_id = e2.2.time_slot_id ∧
      (e1.2.teacher_id = e2.2.teacher_id ∨ e1.2.room_id = e2.2.room_id ∨
        CP.sharesGroupB data e1.1 e2.1 = true) := by
  simp [CP.conflictB, or_assoc]

theorem conflictB_symm (data : TimetableData) (e1 e2 : String × Assignment) :
    CP.conflictB data e1 e2 = CP.conflictB data e2 e1 := by
  rw [Bool.eq_iff_iff, conflictB_eq_true_iff, conflictB_eq_true_iff,
    sharesGroupB_symm]
  constructor
  · rintro ⟨hs, h⟩
    exact ⟨hs.symm, by tauto⟩
  · rintro ⟨hs, h⟩
    exact ⟨hs.symm, by tauto⟩

theorem check_constraints_iff (data : TimetableData) (sol : Solution) (cid : String)
    (a : Assignment) :
    CP.check_constraints data sol cid a.teacher_id a.room_id a.time_slot_id = true ↔
    ∀ e ∈ sol, CP.conflictB data e (cid, a) = false := by
  unfold CP.check_constraints
  split_ifs with h1 h2
  · simp only [Bool.false_eq_true, false_iff]
    obtain ⟨e, he, hfe⟩ := List.any_eq_true.mp h1
    simp only [Bool.and_eq_true, beq_iff_eq] at hfe
    intro hall
    have htrue : CP.conflictB data e (cid, a) = true :=
      (conflictB_eq_true_iff data e (cid, a)).mpr ⟨hfe.2, Or.inl hfe.1⟩
    rw [hall e he] at htrue
    exact absurd htrue (by simp)
  · simp only [Bool.false_eq_true, false_iff]
    obtain ⟨e, he, hfe⟩ := List.any_eq_true.mp h2
    simp only [Bool.and_eq_true, beq_iff_eq] at hfe
    intro hall
    have htrue : CP.conflictB data e (cid, a) = true :=
      (conflictB_eq_true_iff data e (cid, a)).mpr ⟨hfe.2, Or.inr (Or.inl hfe.1)⟩
    rw [hall e he] at htrue
    exact absurd htrue (by simp)
  · have hten : ∀ e ∈ sol, ¬(e.2.teacher_id = a.teacher_id ∧ e.2.time_slot_id = a.time_slot_id) := by
      intro e he hc
      exact h1 (List.any_eq_true.mpr ⟨e, he, by simp [hc.1, hc.2]⟩)
    have hrmn : ∀ e ∈ sol, ¬(e.2.room_id = a.room_id ∧ e.2.time_slot_id = a.time_slot_id) := by
      intro e he hc
      exact h2 (List.any_eq_true.mpr ⟨e, he, by simp [hc.1, hc.2]⟩)
    rcases hcid : alookup data.courses cid with _ | course
    · simp only [true_iff]
      intro e he
      by_contra hc
      rw [Bool.not_eq_false] at hc
      obtain ⟨hs, hor⟩ := (conflictB_eq_true_iff data e (cid, a)).mp hc
      rcases hor with ht | hr | hg
      · exact hten e he ⟨ht, hs⟩
      · exact hrmn e he ⟨hr, hs⟩
      · rcases he1 : alookup data.courses e.1 with _ | ec <;>
          simp [CP.sharesGroupB, he1, hcid] at hg
    · rw [Bool.not_eq_true', List.any_eq_false]
      constructor
      · intro hg e he
        by_contra hc
        rw [Bool.not_eq_false] at hc
        obtain ⟨hs, hor⟩ := (conflictB_eq_true_iff data e (cid, a)).mp hc
        rcases hor with ht | hr | hshare
        · exact hten e he ⟨ht, hs⟩
        · exact hrmn e he ⟨hr, hs⟩
        · rcases he1 : alookup data.courses e.1 with _ | ec
          · simp [CP.sharesGroupB, he1] at hshare
          · rw [CP.sharesGroupB, he1, hcid] at hshare
            obtain ⟨g, hgec, hgcourse⟩ := by
              simpa only [List.any_eq_true, decide_eq_true_eq] using hshare
            have hthis := hg g hgcourse
            rw [List.any_eq_true] at hthis
            push_neg at hthis
            have hinner := hthis e he
            rw [he1] at hinner
            exact hinner (by simp [hgec, hs])
      · intro hall gid hgid
        rw [List.any_eq_true]
        push_neg
        intro e he
        rcases he1 : alookup data.courses e.1 with _ | ec
        · simp
        · intro hx
          have hx' : (decide (gid ∈ ec.student_groups) &&
              (e.2.time_slot_id == a.time_slot_id)) = true := hx
          simp only [Bool.and_eq_true, decide_eq_true_eq, beq_iff_eq] at hx'
          obtain ⟨hgec, hs⟩ := hx'
          have htrue : CP.conflictB data e (cid, a) = true := by
            apply (conflictB_eq_true_iff data e (cid, a)).mpr
            refine ⟨hs, Or.inr (Or.inr ?_)⟩
            rw [CP.sharesGroupB, he1, hcid]
            exact List.any_eq_true.mpr ⟨gid, hgec, by simpa using hgid⟩
          rw [hall e he] at htrue
          exact absurd htrue (by simp)

theorem firstSome_eq_some {α β : Type} (f : α → Option β) :
    ∀ (l : List α) (b : β), CP.firstSome f l = some b → ∃ a ∈ l, f a = some b := by
  intro l
  induction l with
  | nil => intro b h; simp [CP.firstSome] at h
  | cons a rest ih =>
    intro b h
    rcases hfa : f a with _ | c
    · simp only [CP.firstSome, hfa] at h
      obtain ⟨x, hx, hfx⟩ := ih b h
      exact ⟨x, List.mem_cons_of_mem _ hx, hfx⟩
    · simp only [CP.firstSome, hfa, Option.some.injEq] at h
      exact ⟨a, List.mem_cons_self _ _, by rw [hfa, h]⟩

theorem firstSome_eq_none {α β : Type} (f : α → Option β) :
    ∀ l : List α, CP.firstSome f l = none → ∀ a ∈ l, f a = none := by
  intro l
  induction l with
  | nil => intro h a ha; simp at ha
  | cons a rest ih =>
    intro h x hx
    rcases hfa : f a with _ | c
    · simp only [CP.firstSome, hfa] at h
      rcases List.mem_cons.mp hx with rfl | hxr
      · exact hfa
      · exact ih h x hxr
    · simp only [CP.firstSome, hfa] at h
      exact absurd h (by simp)

theorem mem_candidateTriples (data : TimetableData) (c : Course) (a : Assignment) :
    a ∈ CP.candidateTriples data c ↔
    a.teacher_id ∈ c.eligible_teachers ∧ a.room_id ∈ c.preferred_rooms ∧
      a.time_slot_id ∈ data.time_slots.map Prod.fst := by
  unfold CP.candidateTriples
  simp only [List.mem_flatMap, List.mem_map]
  constructor
  · rintro ⟨t, ht, r, hr, p, hp, rfl⟩
    exact ⟨ht, hr, ⟨p, hp, rfl⟩⟩
  · rintro ⟨ht, hr, p, hp, hsid⟩
    exact ⟨a.teacher_id, ht, a.room_id, hr, p, hp, by cases a; simp_all⟩

theorem insortOn_perm {α : Type} (key : α → ℕ) (x : α) :
    ∀ l : List α, List.Perm (insortOn key x l) (x :: l) := by
  intro l
  induction l with
  | nil => exact List.Perm.refl _
  | cons y rest ih =>
    unfold insortOn
    split
    · exact List.Perm.refl _
    · exact (ih.cons y).trans (List.Perm.swap x y rest)

theorem sortOn_perm {α : Type} (key : α → ℕ) (l : List α) :
    List.Perm (sortOn key l) l := by
  unfold sortOn
  induction l with
  | nil => exact List.Perm.refl _
  | cons a rest ih =>
    rw [List.foldr_cons]
    exact (insortOn_perm key a _).trans (ih.cons a)

theorem fromDomains_subset (data : TimetableData) {s ext : Solution}
    (hdom : CP.fromDomains data s = true) (hsub : ∀ p ∈ ext, p ∈ s) :
    CP.fromDomains data ext = true := by
  rw [CP.fromDomains, List.all_eq_true] at hdom ⊢
  exact fun p hp => hdom p (hsub p hp)

theorem pairwise_to_consistent (data : TimetableData) {s : Solution}
    (hpw : List.Pairwise (fun e1 e2 => CP.conflictB data e1 e2 = false) s) :
    CP.ConsistentSol data s := by
  intro e1 h1 e2 h2 hne
  have hsym : Symmetric (fun e1 e2 : String × Assignment => CP.conflictB data e1 e2 = false) := by
    intro a b h
    rw [conflictB_symm]
    exact h
  exact hpw.forall hsym h1 h2 (fun heq => hne (by rw [heq]))

theorem consistent_to_pairwise (data : TimetableData) {s ext : Solution}
    (hnd : (ext.map Prod.fst).Nodup) (hsub : ∀ p ∈ ext, p ∈ s)
    (hcons : CP.ConsistentSol data s) :
    List.Pairwise (fun e1 e2 => CP.conflictB data e1 e2 = false) ext := by
  have hpw : List.Pairwise (fun p q : String × Assignment => p.1 ≠ q.1) ext :=
    (List.pairwise_map.mp hnd)
  exact hpw.imp_of_mem (fun ha hb hne => hcons _ (hsub _ ha) _ (hsub _ hb) hne)

theorem reorder_keys (s : Solution) :
    ∀ l : List String, (∀ c ∈ l, (alookup s c).isSome) →
      (l.filterMap (fun c => (alookup s c).map (fun a => (c, a)))).map Prod.fst = l := by
  intro l
  induction l with
  | nil => intro _; rfl
  | cons c rest ih =>
    intro h
    obtain ⟨a, ha⟩ := Option.isSome_iff_exists.mp (h c (List.mem_cons_self _ _))
    rw [List.filterMap_cons]
    simp only [ha, Option.map_some']
    rw [List.map_cons]
    rw [ih (fun x hx => h x (List.mem_cons_of_mem _ hx))]

theorem reorder_mem (s : Solution) (l : List String) :
    ∀ p ∈ l.filterMap (fun c => (alookup s c).map (fun a => (c, a))), p ∈ s := by
  intro p hp
  rw [List.mem_filterMap] at hp
  obtain ⟨c, _, heq⟩ := hp
  rw [Option.map_eq_some'] at heq
  obtain ⟨a, ha, rfl⟩ := heq
  exact alookup_mem ha

theorem backtrack_sound (data : TimetableData) :
    ∀ (pending : List String) (sol t : Solution),
      CP.backtrack data sol pending = some t →
      (∀ c ∈ pending, c ∈ data.courses.map Prod.fst) →
      List.Pairwise (fun e1 e2 => CP.conflictB data e1 e2 = false) sol →
      ∃ ext, t = sol ++ ext ∧ ext.map Prod.fst = pending ∧
        CP.fromDomains data ext = true ∧
        List.Pairwise (fun e1 e2 => CP.conflictB data e1 e2 = false) t := by
  intro pending
  induction pending with
  | nil =>
    intro sol t h _ hpw
    simp only [CP.backtrack, Option.some.injEq] at h
    subst h
    exact ⟨[], by simp, rfl, rfl, hpw⟩
  | cons cid rest ih =>
    intro sol t h hp hpw
    have hcid : cid ∈ data.courses.map Prod.fst := hp cid (List.mem_cons_self _ _)
    obtain ⟨course, hcourse⟩ := Option.isSome_iff_exists.mp (alookup_isSome_of_mem hcid)
    simp only [CP.backtrack, hcourse] at h
    obtain ⟨a, hamem, ha⟩ := firstSome_eq_some _ _ _ h
    by_cases hchk : CP.check_constraints data sol cid a.teacher_id a.room_id a.time_slot_id = true
    · rw [if_pos hchk] at ha
      have hcross := (check_constraints_iff data sol cid a).mp hchk
      have hpw' : List.Pairwise (fun e1 e2 => CP.conflictB data e1 e2 = false)
          (sol ++ [(cid, a)]) := by
        rw [List.pairwise_append]
        refine ⟨hpw, List.pairwise_singleton _ _, ?_⟩
        intro e he b hb
        rw [List.mem_singleton] at hb
        subst hb
        exact hcross e he
      obtain ⟨ext', ht, hkeys, hdom, hpwt⟩ :=
        ih (sol ++ [(cid, a)]) t ha (fun c hc => hp c (List.mem_cons_of_mem _ hc)) hpw'
      refine ⟨(cid, a) :: ext', ?_, ?_, ?_, hpwt⟩
      · rw [ht, List.append_assoc, List.singleton_append]
      · rw [List.map_cons, hkeys]
      · rw [CP.fromDomains, List.all_cons, Bool.and_eq_true]
        obtain ⟨ht', hr', hs'⟩ := (mem_candidateTriples data course a).mp hamem
        constructor
        · show (match alookup data.courses cid with
            | none => false
            | some c =>
              c.eligible_teachers.contains a.teacher_id &&
              c.preferred_rooms.contains a.room_id &&
              (data.time_slots.map Prod.fst).contains a.time_slot_id) = true
          rw [hcourse]
          have e1 : course.eligible_teachers.contains a.teacher_id = true :=
            List.elem_eq_true_of_mem ht'
          have e2 : course.preferred_rooms.contains a.room_id = true :=
            List.elem_eq_true_of_mem hr'
          have e3 : (data.time_slots.map Prod.fst).contains a.time_slot_id = true :=
            List.elem_eq_true_of_mem hs'
          show (course.eligible_teachers.contains a.teacher_id &&
            course.preferred_rooms.contains a.room_id &&
            (data.time_slots.map Prod.fst).contains a.time_slot_id) = true
          rw [e1, e2, e3]
          rfl
        · exact hdom
    · rw [if_neg hchk] at ha
      exact absurd ha (by simp)

theorem backtrack_complete (data : TimetableData) :
    ∀ (pending : List String) (sol : Solution),
      CP.backtrack data sol pending = none →
      (∀ c ∈ pending, c ∈ data.courses.map Prod.fst) →
      ∀ ext, ext.map Prod.fst = pending → CP.fromDomains data ext = true →
        ¬ List.Pairwise (fun e1 e2 => CP.conflictB data e1 e2 = false) (sol ++ ext) := by
  intro pending
  induction pending with
  | nil =>
    intro sol h _ ext _ _ _
    simp [CP.backtrack] at h
  | cons cid rest ih =>
    intro sol h hp ext hkeys hdom hpw
    have hcid : cid ∈ data.courses.map Prod.fst := hp cid (List.mem_cons_self _ _)
    obtain ⟨course, hcourse⟩ := Option.isSome_iff_exists.mp (alookup_isSome_of_mem hcid)
    simp only [CP.backtrack, hcourse] at h
    rcases ext with _ | ⟨⟨cid', a⟩, ext'⟩
    · simp at hkeys
    · rw [List.map_cons, List.cons.injEq] at hkeys
      obtain ⟨rfl, hkeys'⟩ := hkeys
      rw [CP.fromDomains, List.all_cons, Bool.and_eq_true] at hdom
      obtain ⟨hdomh, hdomt⟩ := hdom
      have hdomh' : (course.eligible_teachers.contains a.teacher_id &&
          course.preferred_rooms.contains a.room_id &&
          (data.time_slots.map Prod.fst).contains a.time_slot_id) = true := by
        have hmatch : (match alookup data.courses cid' with
            | none => false
            | some c =>
              c.eligible_teachers.contains a.teacher_id &&
              c.preferred_rooms.contains a.room_id &&
              (data.time_slots.map Prod.fst).contains a.time_slot_id) = true := hdomh
        rw [hcourse] at hmatch
        exact hmatch
      simp only [Bool.and_eq_true] at hdomh'
      obtain ⟨⟨e1, e2⟩, e3⟩ := hdomh'
      have hamem : a ∈ CP.candidateTriples data course :=
        (mem_candidateTriples data course a).mpr
          ⟨List.mem_of_elem_eq_true e1, List.mem_of_elem_eq_true e2,
            List.mem_of_elem_eq_true e3⟩
      have hcross : ∀ e ∈ sol, CP.conflictB data e (cid', a) = false := by
        intro e he
        rw [List.pairwise_append] at hpw
        exact hpw.2.2 e he (cid', a) (List.mem_cons_self _ _)
      have hchk : CP.check_constraints data sol cid' a.teacher_id a.room_id a.time_slot_id = true :=
        (check_constraints_iff data sol cid' a).mpr hcross
      have hbt : CP.backtrack data (sol ++ [(cid', a)]) rest = none := by
        have := firstSome_eq_none _ _ h a hamem
        rw [if_pos hchk] at this
        exact this
      apply ih (sol ++ [(cid', a)]) hbt (fun c hc => hp c (List.mem_cons_of_mem _ hc))
        ext' hkeys' hdomt
      rw [List.append_assoc, List.singleton_append]
      exact hpw

/-- Claim C3: for reference data with distinct course ids, backtracking
search either returns a total assignment (keys a permutation of the course
ids, every triple from the course's eligible teachers × preferred rooms ×
all time slots) in which no two assignments share a slot with the same
teacher, the same room or a common student group — or it returns `None`
exactly when no such assignment exists.  The embedding is a total function,
so the search never crashes, over-constrained instances included. -/
theorem c3_backtracking_search (data : TimetableData)
    (hnd : (data.courses.map Prod.fst).Nodup) :
    match CP.backtracking_search data with
    | some s => List.Perm (s.map Prod.fst) (data.courses.map Prod.fst) ∧
        CP.fromDomains data s = true ∧ CP.ConsistentSol data s
    | none => ∀ s, List.Perm (s.map Prod.fst) (data.courses.map Prod.fst) →
        CP.fromDomains data s = true → ¬ CP.ConsistentSol data s := by
  have hperm : List.Perm (sortOn (CP.tightness data) (data.courses.map Prod.fst))
      (data.courses.map Prod.fst) := sortOn_perm _ _
  have hpend : ∀ c ∈ sortOn (CP.tightness data) (data.courses.map Prod.fst),
      c ∈ data.courses.map Prod.fst := fun c hc => hperm.subset hc
  rcases hbs : CP.backtracking_search data with _ | s
  · simp only [hbs]
    intro s hp hdomS hcons
    unfold CP.backtracking_search at hbs
    have hpsome : ∀ c ∈ sortOn (CP.tightness data) (data.courses.map Prod.fst),
        (alookup s c).isSome := by
      intro c hc
      exact alookup_isSome_of_mem (hp.mem_iff.mpr (hpend c hc))
    have hkeys := reorder_keys s _ hpsome
    have hmem := reorder_mem s (sortOn (CP.tightness data) (data.courses.map Prod.fst))
    have hdomE := fromDomains_subset data hdomS hmem
    have hndext : ((sortOn (CP.tightness data) (data.courses.map Prod.fst)).filterMap
        (fun c => (alookup s c).map (fun a => (c, a)))).map Prod.fst |>.Nodup := by
      rw [hkeys]
      exact hperm.nodup_iff.mpr hnd
    have hpwext := consistent_to_pairwise data hndext hmem hcons
    have := backtrack_complete data _ [] hbs hpend _ hkeys hdomE
    rw [List.nil_append] at this
    exact this hpwext
  · simp only [hbs]
    unfold CP.backtracking_search at hbs
    obtain ⟨ext, hte, hkeys, hdom, hpw⟩ :=
      backtrack_sound data _ [] s hbs hpend List.Pairwise.nil
    rw [List.nil_append] at hte
    subst hte
    exact ⟨hkeys ▸ hperm, hdom, pairwise_to_consistent data hpw⟩

/-- Claim C3 (instance): on the satisfiable toy instance, backtracking
returns a total, domain-respecting, hard-constraint-consistent assignment. -/
theorem c3_witness :
    (dToy.courses.map Prod.fst).Nodup ∧
    (match CP.backtracking_search dToy with
     | some s => List.Perm (s.map Prod.fst) (dToy.courses.map Prod.fst) ∧
         CP.fromDomains dToy s = true ∧ CP.ConsistentSol dToy s
     | none => ∀ s, List.Perm (s.map Prod.fst) (dToy.courses.map Prod.fst) →
         CP.fromDomains dToy s = true → ¬ CP.ConsistentSol dToy s) :=
  ⟨by decide, c3_backtracking_search dToy (by decide)⟩

/-! ## C6: mode selection and best-effort forward checking -/

theorem ifcAux_min (data : TimetableData) (sel2 : ℕ → ℕ → ℕ) :
    ∀ (its : List ℕ) (best : Solution × ℕ),
      (CP.ifcAux data sel2 0 its best).2 ≤ best.2 ∧
      ∀ it ∈ its, (CP.ifcAux data sel2 0 its best).2 ≤ (CP.onePass data (sel2 it)).2.length := by
  intro its
  induction its with
  | nil => intro best; exact ⟨le_refl _, by simp⟩
  | cons it rest ih =>
    intro best
    simp only [CP.ifcAux]
    by_cases hlt : (CP.onePass data (sel2 it)).2.length < best.2
    · by_cases hle : (CP.onePass data (sel2 it)).2.length ≤ 0
      · rw [if_pos hlt, if_pos hle]
        have h0 : (CP.onePass data (sel2 it)).2.length = 0 := Nat.le_zero.mp hle
        constructor
        · exact le_of_lt (h0 ▸ hlt)
        · intro it' hit'
          rw [h0]
          exact Nat.zero_le _
      · rw [if_pos hlt, if_neg hle]
        obtain ⟨ih1, ih2⟩ :=
          ih ((CP.onePass data (sel2 it)).1, (CP.onePass data (sel2 it)).2.length)
        constructor
        · exact le_trans ih1 (le_of_lt hlt)
        · intro it' hit'
          rcases List.mem_cons.mp hit' with rfl | hr
          · exact ih1
          · exact ih2 it' hr
    · rw [if_neg hlt]
      obtain ⟨ih1, ih2⟩ := ih best
      refine ⟨ih1, ?_⟩
      intro it' hit'
      rcases List.mem_cons.mp hit' with rfl | hr
      · exact le_trans ih1 (not_lt.mp hlt)
      · exact ih2 it' hr

/-- Claim C6: `ConstraintProgramming.run` uses backtracking search exactly
when there are at most 20 courses; whenever backtracking fails it falls
back to iterative forward checking and returns that mode's tracked
solution, and (with the default target `max_unassigned = 0`) the tracked
unassigned count is minimal over every pass any draw sequence produces. -/
theorem c6_run_mode_selection (data : TimetableData) (maxIterations maxUnassigned : ℕ)
    (sel2 : ℕ → ℕ → ℕ) :
    (20 < data.courses.length →
      CP.run data maxIterations maxUnassigned sel2 =
        (CP.iterative_forward_checking data maxIterations maxUnassigned sel2).1) ∧
    (CP.backtracking_search data = none →
      CP.run data maxIterations maxUnassigned sel2 =
        (CP.iterative_forward_checking data maxIterations maxUnassigned sel2).1) ∧
    (∀ s, data.courses.length ≤ 20 → CP.backtracking_search data = some s →
      s.isEmpty = false → CP.run data maxIterations maxUnassigned sel2 = s) ∧
    ((CP.iterative_forward_checking data maxIterations 0 sel2).2 ≤ data.courses.length ∧
     ∀ it ∈ List.range maxIterations,
       (CP.iterative_forward_checking data maxIterations 0 sel2).2 ≤
         (CP.onePass data (sel2 it)).2.length) := by
  refine ⟨?_, ?_, ?_, ?_⟩
  · intro h
    unfold CP.run
    rw [if_neg (not_le.mpr h)]
  · intro h
    unfold CP.run
    split_ifs with h20
    · rw [h]
    · rfl
  · intro s h20 hbs hne
    unfold CP.run
    rw [if_pos h20, hbs]
    simp [hne]
  · exact ifcAux_min data sel2 (List.range maxIterations) ([], data.courses.length)

/-- Claim C6 (instance): on the over-constrained data `run` falls back to
forward checking, and on the toy data it returns the backtracking result. -/
theorem c6_witness :
    CP.run dOver 3 0 selZ2 = (CP.iterative_forward_checking dOver 3 0 selZ2).1 ∧
    CP.run dToy 3 0 selZ2 = sToy :=
  ⟨(c6_run_mode_selection dOver 3 0 selZ2).2.1 (by decide),
   (c6_run_mode_selection dToy 3 0 selZ2).2.2.1 sToy (by decide) rfl (by decide)⟩

end Timetable
